import Mathlib

/-!
Verification of the microservice repository (API gateway, users service,
orders service) against its natural-language specification.

The JavaScript sources are shallowly embedded as executable Lean
definitions:

* the JWT library calls (sign / verify) are modelled by an abstract token
  type carrying the signed payload, the expiry instant and the signing
  secret; anything that does not decode is `TokenStr.garbage`;
* the `Authorization` header parsing is embedded exactly as the source
  performs it (JS `split(" ")`, two parts, first part the literal
  `Bearer`), over explicit character lists so that its behaviour can be
  reasoned about;
* the relational store (Postgres) is modelled as in-memory lists of rows,
  with the unique-email constraint of `init.sql` expressed at the insert
  operation;
* the Express handlers become pure functions from (environment, store,
  request) to (response, store); the uniform response envelope
  `{success, data} / {success:false, error:{code}}` is the `Resp` type
  (human-readable error messages are elided, the machine codes are kept);
* JS truthiness of strings (`x || y`) and `parseInt` (`NaN` modelled as
  `none`) are embedded explicitly where the source relies on them.
-/

namespace Micro

/-- JS `a || b` for string-valued expressions: the empty string and a
missing value are falsy and fall through to the default. -/
def orFalsy (o : Option String) (d : String) : String :=
  match o with
  | none => d
  | some v => if v = "" then d else v

/-- Does a character list contain a space?  (Used to reason about the JS
`split(" ")` the auth middlewares perform.) -/
def hasSp : List Char → Bool
  | [] => false
  | c :: cs => c == ' ' || hasSp cs

/-- JS `String.prototype.split(" ")` on a character list: splits on every
space, keeping empty fragments; on the empty string it yields one empty
fragment, as in JS. -/
def splitSp : List Char → List (List Char)
  | [] => [[]]
  | c :: cs =>
    let r := splitSp cs
    if c == ' ' then [] :: r
    else (c :: r.headD []) :: r.tail

/-- The identity claim payload signed into a token at login:
`{ id, email, roles }` in `service_users` (`jwt.sign` call). -/
structure Identity where
  id : String
  email : String
  roles : List String
deriving DecidableEq, Repr

/-- Failure kinds of `jwt.verify`; the services collapse all of them into
one HTTP outcome. -/
inductive JwtError where
  | malformed
  | invalidSignature
  | expired
deriving DecidableEq, Repr

/-- The bearer-token universe: a well-encoded token is a signed payload
with issued-at / expiry instants and the secret it was signed with; every
other string is garbage that fails to decode. -/
inductive TokenStr where
  | signed (payload : Identity) (iat : Nat) (exp : Nat) (secret : String)
  | garbage (raw : String)
deriving DecidableEq, Repr

/-- `TOKEN_EXPIRES = "2h"` in `service_users`: the fixed TTL, in seconds. -/
def TOKEN_EXPIRES : Nat := 2 * 60 * 60

/-- `jwt.sign(payload, secret, { expiresIn: TOKEN_EXPIRES })`: embeds the
expiry instant `now + TTL` and signs with the process-wide secret. -/
def jwtSign (payload : Identity) (secret : String) (now : Nat) : TokenStr :=
  .signed payload now (now + TOKEN_EXPIRES) secret

/-- `jwt.verify(token, secret)` at clock instant `now`: fails on garbage,
on a signature under a different secret, and once the clock reaches the
embedded expiry instant (jsonwebtoken rejects when `now >= exp`). -/
def jwtVerify (tok : TokenStr) (secret : String) (now : Nat) :
    Except JwtError Identity :=
  match tok with
  | .garbage _ => .error .malformed
  | .signed p _ e s =>
    if s ≠ secret then .error .invalidSignature
    else if e ≤ now then .error .expired
    else .ok p

/-- Outcome of the auth middleware: either a rejected response
(status, error code) or the decoded identity attached to the request. -/
inductive GuardOutcome where
  | reject (status : Nat) (code : String)
  | accept (user : Identity)
deriving DecidableEq, Repr

/-- The literal characters of the scheme token `Bearer`. -/
def bearerChars : List Char := ['B', 'e', 'a', 'r', 'e', 'r']

/-- The literal characters of `Bearer` followed by one space. -/
def bearerSpChars : List Char := bearerChars ++ [' ']

/-- The header-shape check of the auth middlewares, exactly as the source
performs it: `const parts = auth.split(" ")`, reject unless
`parts.length === 2 && parts[0] === "Bearer"`, then verify `parts[1]`.
Returns the credential characters when the shape check passes. -/
def codeParse (l : List Char) : Option (List Char) :=
  let parts := splitSp l
  if parts.length = 2 ∧ parts.head? = some bearerChars then
    some (parts.getD 1 [])
  else none

/-- The same header-shape check phrased structurally: the header must
begin with the seven literal characters of `Bearer` plus a space, and the
remainder (the credential, possibly empty) must contain no further space. -/
def shapeParse (l : List Char) : Option (List Char) :=
  if l.take 7 = bearerSpChars then
    if hasSp (l.drop 7) then none else some (l.drop 7)
  else none

/-- The shared auth middleware of `service_users`, `service_orders` and
the gateway (`verifyJWT` past its public-path bypass): missing header —
and, via JS falsiness of `!auth`, an empty header value — is
`AUTH_REQUIRED` (401); a header failing the `split(" ")` shape check is
`AUTH_INVALID` (401); otherwise the credential is decoded and verified,
failure being `AUTH_INVALID_TOKEN` (403) and success attaching the
payload. -/
def authMiddleware (decode : String → TokenStr) (secret : String) (now : Nat)
    (auth : Option String) : GuardOutcome :=
  match auth with
  | none => .reject 401 "AUTH_REQUIRED"
  | some a =>
    if a = "" then .reject 401 "AUTH_REQUIRED"
    else
      match codeParse a.data with
      | none => .reject 401 "AUTH_INVALID"
      | some cred =>
        match jwtVerify (decode (String.mk cred)) secret now with
        | .ok p => .accept p
        | .error _ => .reject 403 "AUTH_INVALID_TOKEN"

/-- A decoding environment in which no string decodes to a valid token
(in particular the empty credential does not, matching jsonwebtoken,
which throws on an empty token). -/
def decode0 : String → TokenStr := fun s => .garbage s

/-- The guard exactly as the specification words it (claim C1): a
well-formed header is the literal `Bearer`, one space, and a non-empty
credential; any other present header is `AUTH_INVALID` (401); a
well-formed header goes to verification. -/
def specGuard (decode : String → TokenStr) (secret : String) (now : Nat)
    (auth : Option String) : GuardOutcome :=
  match auth with
  | none => .reject 401 "AUTH_REQUIRED"
  | some a =>
    if a.data.take 7 = bearerSpChars ∧ a.data.drop 7 ≠ [] then
      match jwtVerify (decode (String.mk (a.data.drop 7))) secret now with
      | .ok p => .accept p
      | .error _ => .reject 403 "AUTH_INVALID_TOKEN"
    else .reject 401 "AUTH_INVALID"

/-- The guard as the amended claim words it: absent or empty header is
`AUTH_REQUIRED`; a non-empty header that is not the literal `Bearer`,
one space, and a credential containing no further space (the credential
may be empty) is `AUTH_INVALID`; otherwise verification of the credential
decides. -/
def amendedGuard (decode : String → TokenStr) (secret : String) (now : Nat)
    (auth : Option String) : GuardOutcome :=
  match auth with
  | none => .reject 401 "AUTH_REQUIRED"
  | some a =>
    if a = "" then .reject 401 "AUTH_REQUIRED"
    else
      match shapeParse a.data with
      | none => .reject 401 "AUTH_INVALID"
      | some cred =>
        match jwtVerify (decode (String.mk cred)) secret now with
        | .ok p => .accept p
        | .error _ => .reject 403 "AUTH_INVALID_TOKEN"

/-! ## JS `parseInt` and the pagination clamps -/

/-- JS whitespace skipped by `parseInt`. -/
def jsWs (c : Char) : Bool := c == ' ' || c == '\t' || c == '\n' || c == '\r'

/-- The leading decimal digits of a character list. -/
def jsDigits (l : List Char) : List Char := l.takeWhile (fun c => c.isDigit)

/-- Value of a digit run. -/
def digitsToNat (ds : List Char) : Nat :=
  ds.foldl (fun a c => a * 10 + (c.toNat - 48)) 0

/-- JS `parseInt(s, 10)`: skip leading whitespace, optional sign, longest
leading digit run; `NaN` (no digits) is modelled as `none`. -/
def jsParseIntL (l : List Char) : Option Int :=
  match l.dropWhile jsWs with
  | '-' :: rest =>
    if jsDigits rest = [] then none else some (-(digitsToNat (jsDigits rest) : Int))
  | '+' :: rest =>
    if jsDigits rest = [] then none else some ((digitsToNat (jsDigits rest) : Int))
  | rest =>
    if jsDigits rest = [] then none else some ((digitsToNat (jsDigits rest) : Int))

def jsParseInt (s : String) : Option Int := jsParseIntL s.data

/-- JS `Math.max` with `NaN` propagation. -/
def jsMax (o : Option Int) (b : Int) : Option Int := o.map (fun a => max a b)

/-- JS `Math.min` with `NaN` propagation. -/
def jsMin (o : Option Int) (b : Int) : Option Int := o.map (fun a => min a b)

/-- `Math.max(parseInt(req.query.page || "1", 10), 1)` — identical in
`service_users` (user list) and `service_orders` (order list). -/
def pageOf (q : Option String) : Option Int :=
  jsMax (jsParseInt (orFalsy q "1")) 1

/-- `Math.min(Math.max(parseInt(req.query.limit || "20", 10), 1), 100)` —
identical in `service_users` and `service_orders`. -/
def limitOf (q : Option String) : Option Int :=
  jsMin (jsMax (jsParseInt (orFalsy q "20")) 1) 100

/-! ## Data model: rows, stores, public projections, response envelope -/

/-- A row of the `users` table (`init.sql`): the stored password hash is
the `password` column; `name` is nullable. -/
structure UserRow where
  id : String
  email : String
  password : String
  name : Option String
  roles : List String
  created_at : Nat
  updated_at : Nat
deriving DecidableEq, Repr

/-- A row of the `orders` table: items are (product, qty) pairs. -/
structure OrderRow where
  id : String
  user_id : String
  items : List (String × Nat)
  status : String
  total : Int
  created_at : Nat
  updated_at : Nat
deriving DecidableEq, Repr

/-- The relational store shared by the services (one database in
`init.sql`; the unique-email constraint lives on `users.email`). -/
structure Store where
  users : List UserRow
  orders : List OrderRow
deriving DecidableEq, Repr

/-- `toPublic` in `service_users`: the public user fields only — no
`password` column. -/
structure PublicUser where
  id : String
  email : String
  name : Option String
  roles : List String
  created_at : Nat
  updated_at : Nat
deriving DecidableEq, Repr

def toPublic (r : UserRow) : PublicUser :=
  { id := r.id, email := r.email, name := r.name, roles := r.roles,
    created_at := r.created_at, updated_at := r.updated_at }

/-- `orderPublic` in `service_orders`. -/
structure PublicOrder where
  id : String
  user_id : String
  items : List (String × Nat)
  status : String
  total : Int
  created_at : Nat
  updated_at : Nat
deriving DecidableEq, Repr

def orderPublic (o : OrderRow) : PublicOrder :=
  { id := o.id, user_id := o.user_id, items := o.items, status := o.status,
    total := o.total, created_at := o.created_at, updated_at := o.updated_at }

/-- The `data` payload of a success envelope. -/
inductive RespData where
  | nullData
  | user (u : PublicUser)
  | userList (items : List PublicUser) (page : Int) (limit : Int)
  | token (t : TokenStr)
  | order (o : PublicOrder)
  | orderList (items : List PublicOrder) (page : Int) (limit : Int)
  | health (status : String)
deriving DecidableEq, Repr

/-- The uniform response envelope: `{success:true, data}` with an HTTP
status, or `{success:false, error:{code}}` (human message elided). -/
inductive Resp where
  | ok (status : Nat) (data : RespData)
  | err (status : Nat) (code : String)
deriving DecidableEq, Repr

/-- The per-process environment: the shared signing secret, the token
decoding of credential strings, and the external collaborators (Joi's
email format check, bcrypt hash/compare), plus the clock instant and the
store-generated fresh UUID for the one insert a request can perform. -/
structure Env where
  secret : String
  decode : String → TokenStr
  emailOk : String → Bool
  hash : String → String
  check : String → String → Bool
  now : Nat
  freshId : String

/-- Unique-constraint violations surface from Postgres as error code
`23505`. -/
inductive DbErr where
  | uniqueViolation
deriving DecidableEq, Repr

/-- `INSERT INTO users ... RETURNING ...` against the `email UNIQUE`
constraint of `init.sql`. -/
def insertUser (st : Store) (row : UserRow) : Except DbErr Store :=
  if st.users.any (fun r => r.email == row.email) then .error .uniqueViolation
  else .ok { st with users := st.users ++ [row] }

/-! ## Users service (`service_users/index.js`) -/

/-- Body of `POST /v1/users/register`; `name` distinguishes absent
(`none`), JSON `null` (`some none`) and a string. -/
structure RegBody where
  email : String
  password : String
  name : Option (Option String)
deriving Repr

/-- `registerSchema`: Joi requires a valid email and a password of at
least 6 characters; `name` may be absent, null, empty or any string. -/
def validRegister (env : Env) (b : RegBody) : Bool :=
  env.emailOk b.email && decide (6 ≤ b.password.length)

/-- `value.name || ""` in the insert parameters. -/
def nameOrEmpty (n : Option (Option String)) : String :=
  match n with
  | some (some s) => s
  | _ => ""

def registerHandler (env : Env) (st : Store) (b : RegBody) : Resp × Store :=
  if !validRegister env b then (.err 400 "VALIDATION_ERROR", st)
  else
    let row : UserRow :=
      { id := env.freshId, email := b.email, password := env.hash b.password,
        name := some (nameOrEmpty b.name), roles := ["user"],
        created_at := env.now, updated_at := env.now }
    match insertUser st row with
    | .ok st' => (.ok 200 (.user (toPublic row)), st')
    | .error .uniqueViolation => (.err 400 "USER_EXISTS", st)

structure LoginBody where
  email : String
  password : String
deriving Repr

/-- `loginSchema`: valid email, non-empty password string. -/
def validLogin (env : Env) (b : LoginBody) : Bool :=
  env.emailOk b.email && decide (b.password ≠ "")

def loginHandler (env : Env) (st : Store) (b : LoginBody) : Resp :=
  if !validLogin env b then .err 400 "VALIDATION_ERROR"
  else
    match st.users.find? (fun r => r.email == b.email) with
    | none => .err 401 "NOT_FOUND"
    | some u =>
      if env.check b.password u.password then
        .ok 200 (.token (jwtSign ⟨u.id, u.email, u.roles⟩ env.secret env.now))
      else .err 403 "INVALID_CREDENTIALS"

def getMeHandler (st : Store) (user : Identity) : Resp :=
  match st.users.find? (fun r => r.id == user.id) with
  | none => .err 404 "NOT_FOUND"
  | some r => .ok 200 (.user (toPublic r))

/-- Body of `PATCH /v1/users/me`. -/
structure UpdateBody where
  name : Option (Option String)
  password : Option String
deriving Repr

/-- `updateSchema`: a present password must have at least 6 characters. -/
def validUpdateMe (b : UpdateBody) : Bool :=
  match b.password with
  | some p => decide (6 ≤ p.length)
  | none => true

/-- The row update `UPDATE users SET <fields>, updated_at = now()`
builds: `name` is set when the body carries the field (including null),
`password` when the body carries a truthy password. -/
def applyProfileUpdate (nameField : Option (Option String))
    (pwField : Option String) (now : Nat) (r : UserRow) : UserRow :=
  { r with
    name := match nameField with | some v => v | none => r.name,
    password := match pwField with | some h => h | none => r.password,
    updated_at := now }

def patchMeHandler (env : Env) (st : Store) (user : Identity)
    (b : UpdateBody) : Resp × Store :=
  if !validUpdateMe b then (.err 400 "VALIDATION_ERROR", st)
  else
    let pwField : Option String :=
      match b.password with
      | some p => if p = "" then none else some (env.hash p)
      | none => none
    if b.name = none ∧ pwField = none then (.ok 200 .nullData, st)
    else
      match st.users.find? (fun r => r.id == user.id) with
      | none => (.ok 200 .nullData, st)
      | some r =>
        (.ok 200 (.user (toPublic (applyProfileUpdate b.name pwField env.now r))),
         { st with users := st.users.map (fun q =>
             if q.id == user.id then applyProfileUpdate b.name pwField env.now q
             else q) })

/-- Insertion step of the sort used to model `ORDER BY`. -/
def insertBy (le : α → α → Bool) (x : α) : List α → List α
  | [] => [x]
  | y :: ys => if le x y then x :: y :: ys else y :: insertBy le x ys

/-- Insertion sort used to model `ORDER BY created_at`. -/
def sortBy (le : α → α → Bool) : List α → List α
  | [] => []
  | x :: xs => insertBy le x (sortBy le xs)

/-- Does `needle` occur as a contiguous run inside `hay`? -/
def subRun (needle : List Char) : List Char → Bool
  | [] => needle.isEmpty
  | c :: cs => needle.isPrefixOf (c :: cs) || subRun needle cs

/-- `email ILIKE '%filter%'` (case-insensitive substring; the pattern
metacharacter corner of ILIKE is outside what any claim touches). -/
def emailMatch (email filter : String) : Bool :=
  subRun (filter.data.map Char.toLower) (email.data.map Char.toLower)

/-- `LIMIT l OFFSET (p-1)*l` applied to ordered rows. -/
def pageSlice (p l : Int) (rows : List α) : List α :=
  (rows.drop ((p - 1) * l).toNat).take l.toNat

def listUsersHandler (st : Store) (user : Identity)
    (pageQ limitQ emailQ : Option String) : Resp :=
  if !(user.roles.contains "admin") then .err 403 "FORBIDDEN"
  else
    match pageOf pageQ, limitOf limitQ with
    | some p, some l =>
      let filter := orFalsy emailQ ""
      let rows := sortBy (fun a b : UserRow => decide (b.created_at ≤ a.created_at))
        (st.users.filter (fun r => emailMatch r.email filter))
      .ok 200 (.userList ((pageSlice p l rows).map toPublic) p l)
    | _, _ => .err 500 "INTERNAL"

/-- The requests the users service serves. -/
inductive UsersReq where
  | register (b : RegBody)
  | login (b : LoginBody)
  | getMe (auth : Option String)
  | patchMe (auth : Option String) (b : UpdateBody)
  | listUsers (auth : Option String) (pageQ limitQ emailQ : Option String)
  | health
deriving Repr

/-- One request against the users service: public routes go straight to
their handler, protected routes first run the auth middleware. -/
def userService (env : Env) (st : Store) : UsersReq → Resp × Store
  | .register b => registerHandler env st b
  | .login b => (loginHandler env st b, st)
  | .getMe auth =>
    match authMiddleware env.decode env.secret env.now auth with
    | .reject s c => (.err s c, st)
    | .accept user => (getMeHandler st user, st)
  | .patchMe auth b =>
    match authMiddleware env.decode env.secret env.now auth with
    | .reject s c => (.err s c, st)
    | .accept user => patchMeHandler env st user b
  | .listUsers auth pq lq eq2 =>
    match authMiddleware env.decode env.secret env.now auth with
    | .reject s c => (.err s c, st)
    | .accept user => (listUsersHandler st user pq lq eq2, st)
  | .health => (.ok 200 (.health "users OK"), st)

/-! ## Orders service (`service_orders/index.js`) -/

/-- The fixed status enumeration of `updateSchema` and the
`order_status` type of `init.sql`. -/
def ORDER_STATUSES : List String := ["created", "in_progress", "completed", "cancelled"]

/-- Body of `POST /v1/orders`. -/
structure CreateBody where
  items : List (String × Nat)
  total : Int
deriving Repr

/-- `createSchema`: at least one item, each with a non-empty product name
and integer qty ≥ 1, and a total ≥ 0. -/
def validCreate (b : CreateBody) : Bool :=
  decide (b.items ≠ []) &&
    b.items.all (fun it => decide (it.1 ≠ "") && decide (1 ≤ it.2)) &&
    decide (0 ≤ b.total)

def createOrderHandler (env : Env) (st : Store) (user : Identity)
    (b : CreateBody) : Resp × Store :=
  if !validCreate b then (.err 400 "VALIDATION_ERROR", st)
  else if !(st.users.any (fun u => u.id == user.id)) then
    (.err 400 "USER_NOT_FOUND", st)
  else
    let row : OrderRow :=
      { id := env.freshId, user_id := user.id, items := b.items,
        status := "created", total := b.total,
        created_at := env.now, updated_at := env.now }
    (.ok 201 (.order (orderPublic row)), { st with orders := st.orders ++ [row] })

def getOrderHandler (st : Store) (user : Identity) (oid : String) : Resp :=
  match st.orders.find? (fun o => o.id == oid) with
  | none => .err 404 "NOT_FOUND"
  | some o =>
    if o.user_id != user.id && !(user.roles.contains "admin") then
      .err 403 "FORBIDDEN"
    else .ok 200 (.order (orderPublic o))

def listOrdersHandler (st : Store) (user : Identity)
    (pageQ limitQ sortQ : Option String) : Resp :=
  match pageOf pageQ, limitOf limitQ with
  | some p, some l =>
    let asc := sortQ = some "asc"
    let le : OrderRow → OrderRow → Bool := fun a b =>
      if asc then decide (a.created_at ≤ b.created_at)
      else decide (b.created_at ≤ a.created_at)
    let rows := sortBy le (st.orders.filter (fun o => o.user_id == user.id))
    .ok 200 (.orderList ((pageSlice p l rows).map orderPublic) p l)
  | _, _ => .err 500 "INTERNAL"

/-- `updateSchema.validate` on the PATCH body: the status field must be
present and drawn from the fixed enumeration. -/
def validOrderUpdate (b : Option String) : Option String :=
  match b with
  | some s => if ORDER_STATUSES.contains s then some s else none
  | none => none

def patchOrderHandler (env : Env) (st : Store) (user : Identity)
    (oid : String) (b : Option String) : Resp × Store :=
  match validOrderUpdate b with
  | none => (.err 400 "VALIDATION_ERROR", st)
  | some s =>
    match st.orders.find? (fun o => o.id == oid) with
    | none => (.err 404 "NOT_FOUND", st)
    | some o =>
      if o.user_id != user.id && !(user.roles.contains "admin") then
        (.err 403 "FORBIDDEN", st)
      else
        (.ok 200 (.order (orderPublic { o with status := s, updated_at := env.now })),
         { st with orders := st.orders.map (fun q =>
             if q.id == oid then { q with status := s, updated_at := env.now }
             else q) })

/-- The requests the orders service serves. -/
inductive OrdersReq where
  | create (auth : Option String) (b : CreateBody)
  | getOrder (auth : Option String) (oid : String)
  | listOrders (auth : Option String) (pageQ limitQ sortQ : Option String)
  | patchOrder (auth : Option String) (oid : String) (b : Option String)
  | health
deriving Repr

/-- One request against the orders service: everything except `/health`
passes through the auth middleware first. -/
def ordersService (env : Env) (st : Store) : OrdersReq → Resp × Store
  | .create auth b =>
    match authMiddleware env.decode env.secret env.now auth with
    | .reject s c => (.err s c, st)
    | .accept user => createOrderHandler env st user b
  | .getOrder auth oid =>
    match authMiddleware env.decode env.secret env.now auth with
    | .reject s c => (.err s c, st)
    | .accept user => (getOrderHandler st user oid, st)
  | .listOrders auth pq lq sq =>
    match authMiddleware env.decode env.secret env.now auth with
    | .reject s c => (.err s c, st)
    | .accept user => (listOrdersHandler st user pq lq sq, st)
  | .patchOrder auth oid b =>
    match authMiddleware env.decode env.secret env.now auth with
    | .reject s c => (.err s c, st)
    | .accept user => patchOrderHandler env st user oid b
  | .health => (.ok 200 (.health "orders OK"), st)

/-! ## API gateway (`api_gateway/index.js`) -/

def USERS_SERVICE_URL : String := "http://service_users:5001"
def ORDERS_SERVICE_URL : String := "http://service_orders:5002"

/-- Is the first character list a prefix of the second?  (JS
`String.prototype.startsWith`.) -/
def isPrefixCh : List Char → List Char → Bool
  | [], _ => true
  | _ :: _, [] => false
  | c :: cs, d :: ds => c == d && isPrefixCh cs ds

/-- The fixed public allow-list of the gateway. -/
def publicPrefixes : List String :=
  ["/v1/users/register", "/v1/users/login", "/health"]

/-- `isPublicPath`: exact match or prefix match against the allow-list. -/
def isPublicPath (p : String) : Bool :=
  publicPrefixes.any (fun q => p == q || isPrefixCh q.data p.data)

/-- Express mount matching for `app.use(mount, proxy)`: the path equals
the mount or continues it at a path-segment boundary. -/
def routeMatch (mount p : String) : Bool :=
  p == mount || isPrefixCh (mount.data ++ ['/']) p.data

/-- An inbound request at the gateway: its path, `Authorization` header
and the two spellings of the correlation-id header the source reads. -/
structure GwRequest where
  path : String
  auth : Option String
  rid1 : Option String
  rid2 : Option String
deriving Repr

/-- What the gateway does with a request: reject it at the guard, forward
it to a backend (with the headers the proxy decorator sets), answer
`/health` locally, or fall through unmatched. -/
inductive GwOutcome where
  | reject (status : Nat) (code : String)
  | fwd (target : String) (path : String) (requestId : String) (auth : String)
  | health
  | notFound
deriving DecidableEq, Repr

/-- The gateway pipeline: correlation-id middleware (reuse a truthy
inbound id, else synthesize `fresh`), then `verifyJWT` (bypassed on
public paths), then the static routing table.  Returns the outcome and
the `X-Request-ID` response header value. -/
def gateway (decode : String → TokenStr) (secret : String) (now : Nat)
    (fresh : String) (req : GwRequest) : GwOutcome × String :=
  let rid := orFalsy req.rid1 (orFalsy req.rid2 fresh)
  let route : GwOutcome :=
    if routeMatch "/v1/users" req.path then
      .fwd USERS_SERVICE_URL req.path rid (orFalsy req.auth "")
    else if routeMatch "/v1/orders" req.path then
      .fwd ORDERS_SERVICE_URL req.path rid (orFalsy req.auth "")
    else if req.path = "/health" then .health
    else .notFound
  if isPublicPath req.path then (route, rid)
  else
    match authMiddleware decode secret now req.auth with
    | .reject s c => (.reject s c, rid)
    | .accept _ => (route, rid)
/-! ## Strings occurring in response payloads (claim C10) -/

/-- The string atoms of a public user projection (what serializing it can
reveal): id, email, the name when non-null, and the role strings. -/
def pubUserStrings (u : PublicUser) : List String :=
  u.id :: u.email ::
    ((match u.name with | some n => [n] | none => []) ++ u.roles)

/-- The string atoms of a public order projection. -/
def pubOrderStrings (o : PublicOrder) : List String :=
  o.id :: o.user_id :: o.status :: o.items.map (fun it => it.1)

/-- The string atoms a serialized token can reveal: the claim payload (a
JWT body is readable); the HMAC does not reveal the secret itself. -/
def tokenStrings : TokenStr → List String
  | .signed c _ _ _ => c.id :: c.email :: c.roles
  | .garbage r => [r]

/-- All string atoms of a success payload. -/
def dataStrings : RespData → List String
  | .nullData => []
  | .health s => [s]
  | .user u => pubUserStrings u
  | .userList items _ _ => (items.map pubUserStrings).flatten
  | .token t => tokenStrings t
  | .order o => pubOrderStrings o
  | .orderList items _ _ => (items.map pubOrderStrings).flatten

/-- Every public (non-password) string stored in the users table. -/
def storeUserStrings (st : Store) : List String :=
  (st.users.map (fun r => pubUserStrings (toPublic r))).flatten

/-- Every string stored in the orders table. -/
def storeOrderStrings (st : Store) : List String :=
  (st.orders.map (fun o => pubOrderStrings (orderPublic o))).flatten

/-- The fixed literals a success payload can contain: the empty string
(`name || ""`), the default role, the two health strings and the status
enumeration. -/
def fixedRespStrings : List String :=
  "" :: "user" :: "users OK" :: "orders OK" :: ORDER_STATUSES

/-- The request strings that can flow into a users-service success
payload: the registered email and the name fields. -/
def usersReqStrings : UsersReq → List String
  | .register b => b.email :: (match b.name with | some (some n) => [n] | _ => [])
  | .patchMe _ b => (match b.name with | some (some n) => [n] | _ => [])
  | _ => []

/-- The request strings that can flow into an orders-service success
payload: the product names of a created order. -/
def ordersReqStrings : OrdersReq → List String
  | .create _ b => b.items.map (fun it => it.1)
  | _ => []

/-! ## Concrete fixtures used by the witnesses -/

/-- A concrete environment: trivially-true email check, a visible
"hash", equality-of-hash compare. -/
def envW : Env :=
  { secret := "supersecret", decode := decode0, emailOk := fun _ => true,
    hash := fun p => p ++ "#h", check := fun p h => h = p ++ "#h",
    now := 10, freshId := "fresh-1" }

def aliceRow : UserRow :=
  { id := "u-alice", email := "alice@example.com", password := "secret1#h",
    name := some "Alice", roles := ["user"], created_at := 1, updated_at := 1 }

def bobRow : UserRow :=
  { id := "u-bob", email := "bob@example.com", password := "secret2#h",
    name := some "Bob", roles := ["user"], created_at := 2, updated_at := 2 }

def adminRow : UserRow :=
  { id := "u-admin", email := "root@example.com", password := "secret9#h",
    name := some "Root", roles := ["user", "admin"], created_at := 0, updated_at := 0 }

def orderW : OrderRow :=
  { id := "o1", user_id := "u-alice", items := [("widget", 2)],
    status := "created", total := 9, created_at := 3, updated_at := 3 }

def stW : Store := { users := [aliceRow, bobRow, adminRow], orders := [orderW] }

def aliceId : Identity := ⟨"u-alice", "alice@example.com", ["user"]⟩
def bobId : Identity := ⟨"u-bob", "bob@example.com", ["user"]⟩

/-- A decoding environment in which every credential decodes to a token
signed for alice under the shared secret, unexpired at instant 0. -/
def decodeAlice : String → TokenStr :=
  fun _ => .signed ⟨"u-alice", "alice@example.com", ["user"]⟩ 0 7200 "supersecret"

def reqHealth : GwRequest :=
  { path := "/health", auth := none, rid1 := none, rid2 := none }

def reqOrders : GwRequest :=
  { path := "/v1/orders/o1", auth := some "Bearer tok", rid1 := none, rid2 := none }

/-! ## Helper lemmas -/

theorem splitSp_ne_nil (l : List Char) : splitSp l ≠ [] := by
  cases l with
  | nil => simp [splitSp]
  | cons c cs =>
    simp only [splitSp]
    by_cases h : c = ' ' <;> simp [h]

theorem splitSp_of_not_hasSp (l : List Char) (h : hasSp l = false) :
    splitSp l = [l] := by
  induction l with
  | nil => simp [splitSp]
  | cons c cs ih =>
    simp only [hasSp, Bool.or_eq_false_iff, beq_eq_false_iff_ne] at h
    obtain ⟨hc, hcs⟩ := h
    simp [splitSp, hc, ih hcs]

theorem splitSp_append (x y : List Char) (h : hasSp x = false) :
    splitSp (x ++ ' ' :: y) = x :: splitSp y := by
  induction x with
  | nil => simp [splitSp]
  | cons c cs ih =>
    simp only [hasSp, Bool.or_eq_false_iff, beq_eq_false_iff_ne] at h
    obtain ⟨hc, hcs⟩ := h
    rw [List.cons_append]
    simp [splitSp, hc, ih hcs]

theorem splitSp_singleton (l x : List Char) (h : splitSp l = [x]) :
    l = x ∧ hasSp l = false := by
  induction l generalizing x with
  | nil =>
    simp only [splitSp, List.cons.injEq, and_true] at h
    subst h
    simp [hasSp]
  | cons c cs ih =>
    simp only [splitSp] at h
    by_cases hc : c = ' '
    · simp only [hc, beq_self_eq_true, if_true, List.cons.injEq] at h
      exact absurd h.2 (splitSp_ne_nil cs)
    · simp only [beq_iff_eq, hc, if_false, List.cons.injEq] at h
      obtain ⟨hx, htail⟩ := h
      cases hs : splitSp cs with
      | nil => exact absurd hs (splitSp_ne_nil cs)
      | cons p ps =>
        rw [hs] at hx htail
        simp only [List.headD_cons, List.tail_cons] at hx htail
        subst htail
        obtain ⟨h1, h2⟩ := ih p hs
        subst h1
        subst hx
        exact ⟨rfl, by simp [hasSp, hc, h2]⟩

theorem splitSp_pair (l x y : List Char) (h : splitSp l = [x, y]) :
    l = x ++ ' ' :: y ∧ hasSp x = false ∧ hasSp y = false := by
  induction l generalizing x y with
  | nil => simp [splitSp] at h
  | cons c cs ih =>
    simp only [splitSp] at h
    by_cases hc : c = ' '
    · simp only [hc, beq_self_eq_true, if_true, List.cons.injEq] at h
      obtain ⟨hx, htail⟩ := h
      obtain ⟨h1, h2⟩ := splitSp_singleton cs y htail
      subst h1
      subst hx
      exact ⟨by simp [hc], rfl, h2⟩
    · simp only [beq_iff_eq, hc, if_false, List.cons.injEq] at h
      obtain ⟨hx, htail⟩ := h
      cases hs : splitSp cs with
      | nil => exact absurd hs (splitSp_ne_nil cs)
      | cons p ps =>
        rw [hs] at hx htail
        simp only [List.headD_cons, List.tail_cons] at hx htail
        subst hx
        have hps : splitSp cs = [p, y] := by rw [hs, htail]
        obtain ⟨h1, h2, h3⟩ := ih p y hps
        subst h1
        exact ⟨by simp, by simp [hasSp, hc, h2], h3⟩

theorem splitSp_long_of_hasSp (l : List Char) (h : hasSp l = true) :
    2 ≤ (splitSp l).length := by
  induction l with
  | nil => simp [hasSp] at h
  | cons c cs ih =>
    simp only [splitSp]
    by_cases hc : c = ' '
    · have := splitSp_ne_nil cs
      cases hs : splitSp cs with
      | nil => exact absurd hs this
      | cons p ps => simp [hc]
    · simp only [hasSp, Bool.or_eq_true, beq_iff_eq] at h
      rcases h with h | h
      · exact absurd h hc
      · cases hs : splitSp cs with
        | nil => exact absurd hs (splitSp_ne_nil cs)
        | cons p ps =>
          have h2 := ih h
          rw [hs] at h2
          simp only [List.length_cons] at h2
          simp [hc]
          omega

theorem hasSp_bearerChars : hasSp bearerChars = false := by decide

theorem codeParse_eq_shapeParse (l : List Char) :
    codeParse l = shapeParse l := by
  by_cases h1 : l.take 7 = bearerSpChars
  · have hl : l = bearerChars ++ ' ' :: l.drop 7 := by
      conv_lhs => rw [← List.take_append_drop 7 l]
      rw [h1]
      simp [bearerSpChars]
    by_cases h2 : hasSp (l.drop 7) = true
    · have hsplit : splitSp l = bearerChars :: splitSp (l.drop 7) := by
        conv_lhs => rw [hl]
        exact splitSp_append _ _ hasSp_bearerChars
      have hlen : 2 ≤ (splitSp (l.drop 7)).length := splitSp_long_of_hasSp _ h2
      simp only [codeParse, shapeParse, h1, if_true, h2, if_true, hsplit]
      rw [if_neg]
      intro hcontra
      obtain ⟨hlen2, _⟩ := hcontra
      simp only [List.length_cons] at hlen2
      omega
    · have h2' : hasSp (l.drop 7) = false := by
        cases hh : hasSp (l.drop 7)
        · rfl
        · exact absurd hh h2
      have hsplit : splitSp l = [bearerChars, l.drop 7] := by
        conv_lhs => rw [hl]
        rw [splitSp_append _ _ hasSp_bearerChars,
            splitSp_of_not_hasSp _ h2']
      simp [codeParse, shapeParse, h1, h2', hsplit]
  · simp only [codeParse, shapeParse, h1, if_false]
    rw [if_neg]
    intro hcontra
    obtain ⟨hlen, hhead⟩ := hcontra
    have hex : ∃ y, splitSp l = [bearerChars, y] := by
      cases hs : splitSp l with
      | nil => exact absurd hs (splitSp_ne_nil l)
      | cons p ps =>
        rw [hs] at hlen hhead
        simp only [List.head?_cons, Option.some.injEq] at hhead
        subst hhead
        cases ps with
        | nil => simp at hlen
        | cons q qs =>
          cases qs with
          | nil => exact ⟨q, rfl⟩
          | cons r rs => simp at hlen
    obtain ⟨y, hs⟩ := hex
    obtain ⟨hl, hx, hy⟩ := splitSp_pair l _ y hs
    apply h1
    rw [hl]
    simp [bearerSpChars, bearerChars, List.take]

/-! ## Claim C1 — the Authorization Guard's three-way case analysis -/

/-- Claim C1, counterexample: the header consisting of `Bearer`, one
space and an empty credential.  The claim's case analysis calls this
shape malformed and demands 401 `AUTH_INVALID`; the source's
`split(" ")` shape check accepts it (two parts, first `Bearer`) and the
empty credential then fails verification, so the request is rejected
with 403 `AUTH_INVALID_TOKEN` instead. -/
theorem c1_counterexample :
    authMiddleware decode0 "supersecret" 0 (some "Bearer ") =
      GuardOutcome.reject 403 "AUTH_INVALID_TOKEN" ∧
    specGuard decode0 "supersecret" 0 (some "Bearer ") =
      GuardOutcome.reject 401 "AUTH_INVALID" := by
  constructor
  · decide
  · decide

/-- Claim C1 as amended: on every request the deployed middleware agrees
with the three-way case analysis whose well-formed headers are exactly
`Bearer`, one space, and a credential free of further spaces (possibly
empty), with absent or empty headers rejected `AUTH_REQUIRED` (401),
other shapes `AUTH_INVALID` (401), and verification deciding between
`AUTH_INVALID_TOKEN` (403) and acceptance. -/
theorem c1_amended (decode : String → TokenStr) (secret : String) (now : Nat)
    (auth : Option String) :
    authMiddleware decode secret now auth = amendedGuard decode secret now auth := by
  cases auth with
  | none => rfl
  | some a =>
    simp only [authMiddleware, amendedGuard, codeParse_eq_shapeParse]

/-! ## Claim C3 — issue/verify round trip and expiry -/

/-- Claim C3: a token issued by login's `jwt.sign` with the fixed 2-hour
TTL always passes `jwt.verify` immediately after issuance under the same
shared secret, and always fails verification (as expired) at any instant
past the embedded expiry. -/
theorem c3_issue_verify (c : Identity) (secret : String) (now t : Nat) :
    jwtVerify (jwtSign c secret now) secret now = .ok c ∧
    (now + TOKEN_EXPIRES < t →
      jwtVerify (jwtSign c secret now) secret t = .error .expired) := by
  constructor
  · simp only [jwtSign, jwtVerify]
    rw [if_neg (by simp), if_neg (by unfold TOKEN_EXPIRES; omega)]
  · intro h
    simp only [jwtSign, jwtVerify]
    rw [if_neg (by simp), if_pos (by omega)]

/-- Witness for C3 at a concrete identity, secret and clock instants. -/
theorem c3_witness :
    jwtVerify (jwtSign ⟨"u1", "a@b.c", ["user"]⟩ "supersecret" 0) "supersecret" 0 =
      .ok ⟨"u1", "a@b.c", ["user"]⟩ ∧
    jwtVerify (jwtSign ⟨"u1", "a@b.c", ["user"]⟩ "supersecret" 0) "supersecret" 7201 =
      .error .expired :=
  ⟨(c3_issue_verify ⟨"u1", "a@b.c", ["user"]⟩ "supersecret" 0 7201).1,
   (c3_issue_verify ⟨"u1", "a@b.c", ["user"]⟩ "supersecret" 0 7201).2 (by decide)⟩

/-! ## Claim C5 — pagination clamping -/

/-- Claim C5: in both paginated listings (users and orders use the very
same expressions) a numeric limit above 100 clamps to 100, a numeric
limit below 1 clamps to 1, a numeric page below 1 clamps to 1, and the
defaults are page 1 and limit 20 when the parameters are absent; the
order-listing response echoes exactly these clamped values. -/
theorem c5_pagination (s : String) (n : Int) (h : jsParseInt s = some n) :
    (100 < n → limitOf (some s) = some 100) ∧
    (n < 1 → limitOf (some s) = some 1 ∧ pageOf (some s) = some 1) ∧
    pageOf none = some 1 ∧ limitOf none = some 20 ∧
    (∀ st user p l, pageOf (some s) = some p → limitOf (some s) = some l →
      ∃ items, listOrdersHandler st user (some s) (some s) none =
        .ok 200 (.orderList items p l)) := by
  have hns : s ≠ "" := by
    intro he
    rw [he] at h
    simp [jsParseInt, jsParseIntL, jsDigits] at h
  have hfall : orFalsy (some s) "1" = s := by simp [orFalsy, hns]
  have hfall2 : orFalsy (some s) "20" = s := by simp [orFalsy, hns]
  refine ⟨?_, ?_, by decide, by decide, ?_⟩
  · intro hn
    simp only [limitOf, hfall2, h, jsMax, jsMin, Option.map, Option.some.injEq]
    omega
  · intro hn
    constructor
    · simp only [limitOf, hfall2, h, jsMax, jsMin, Option.map, Option.some.injEq]
      omega
    · simp only [pageOf, hfall, h, jsMax, Option.map, Option.some.injEq]
      omega
  · intro st user p l hp hl
    simp only [listOrdersHandler, hp, hl]
    exact ⟨_, rfl⟩

/-- Witness for C5 at the concrete query strings "250", "0" and "-3". -/
theorem c5_witness :
    limitOf (some "250") = some 100 ∧ limitOf (some "0") = some 1 ∧
    pageOf (some "-3") = some 1 ∧ pageOf none = some 1 ∧
    limitOf none = some 20 := by
  refine ⟨(c5_pagination "250" 250 (by decide)).1 (by decide),
    ((c5_pagination "0" 0 (by decide)).2.1 (by decide)).1,
    ((c5_pagination "-3" (-3) (by decide)).2.1 (by decide)).2,
    (c5_pagination "250" 250 (by decide)).2.2.1,
    (c5_pagination "250" 250 (by decide)).2.2.2.1⟩

/-! ## Claim C9 — no-op profile update writes nothing -/

/-- Claim C9: an authenticated `PATCH /v1/users/me` whose body carries no
name field and no password passes validation, responds 200 with data
null, and leaves the store — every user row, `updated_at` included —
unchanged. -/
theorem c9_noop_patch (env : Env) (st : Store) (user : Identity)
    (b : UpdateBody) (hn : b.name = none) (hp : b.password = none) :
    patchMeHandler env st user b = (.ok 200 .nullData, st) := by
  unfold patchMeHandler validUpdateMe
  rw [hp, hn]
  simp

/-! ## Claim C2 — owner-or-admin policy on single orders -/

/-- The deny condition of the owner-or-admin checks, as a proposition. -/
theorem orderDeny_iff (o : OrderRow) (user : Identity) :
    (o.user_id != user.id && !(user.roles.contains "admin")) = true ↔
      ¬(o.user_id = user.id ∨ "admin" ∈ user.roles) := by
  simp [not_or]

/-- Claim C2: when the order exists, reading it succeeds iff the caller
owns it or holds the admin role; every other caller is denied 403
`FORBIDDEN` on both GET and (valid-bodied) PATCH, a denied PATCH leaving
the store unchanged; an allowed PATCH returns the updated order. -/
theorem c2_owner_or_admin (env : Env) (st : Store) (user : Identity)
    (oid : String) (o : OrderRow) (s : String)
    (hfind : st.orders.find? (fun q => q.id == oid) = some o)
    (hs : s ∈ ORDER_STATUSES) :
    (getOrderHandler st user oid = .ok 200 (.order (orderPublic o)) ↔
      (o.user_id = user.id ∨ "admin" ∈ user.roles)) ∧
    (¬(o.user_id = user.id ∨ "admin" ∈ user.roles) →
      getOrderHandler st user oid = .err 403 "FORBIDDEN" ∧
      patchOrderHandler env st user oid (some s) = (.err 403 "FORBIDDEN", st)) ∧
    ((o.user_id = user.id ∨ "admin" ∈ user.roles) →
      ∃ st', patchOrderHandler env st user oid (some s) =
        (.ok 200 (.order (orderPublic { o with status := s, updated_at := env.now })),
         st')) := by
  have hvalid : validOrderUpdate (some s) = some s := by
    simp only [validOrderUpdate]
    rw [if_pos (by simpa using hs)]
  by_cases hallow : o.user_id = user.id ∨ "admin" ∈ user.roles
  · have hb : ¬((o.user_id != user.id && !(user.roles.contains "admin")) = true) := by
      rw [orderDeny_iff o user]
      exact not_not_intro hallow
    refine ⟨?_, fun hc => absurd hallow hc, fun _ => ?_⟩
    · simp only [getOrderHandler, hfind]
      rw [if_neg hb]
      exact iff_of_true rfl hallow
    · simp only [patchOrderHandler, hvalid, hfind]
      rw [if_neg hb]
      exact ⟨_, rfl⟩
  · have hb : (o.user_id != user.id && !(user.roles.contains "admin")) = true :=
      (orderDeny_iff o user).mpr hallow
    refine ⟨?_, fun _ => ⟨?_, ?_⟩, fun hc => absurd hc hallow⟩
    · simp only [getOrderHandler, hfind]
      rw [if_pos hb]
      exact iff_of_false (by simp) hallow
    · simp only [getOrderHandler, hfind]
      rw [if_pos hb]
    · simp only [patchOrderHandler, hvalid, hfind]
      rw [if_pos hb]

/-- Witness for C2: alice reads her own order, bob is denied both
reading and patching it, and the store survives bob's attempt. -/
theorem c2_witness :
    getOrderHandler stW aliceId "o1" = .ok 200 (.order (orderPublic orderW)) ∧
    getOrderHandler stW bobId "o1" = .err 403 "FORBIDDEN" ∧
    patchOrderHandler envW stW bobId "o1" (some "completed") =
      (.err 403 "FORBIDDEN", stW) := by
  refine ⟨?_, ?_, ?_⟩
  · exact (c2_owner_or_admin envW stW aliceId "o1" orderW "completed"
      (by decide) (by decide)).1.mpr (Or.inl rfl)
  · exact ((c2_owner_or_admin envW stW bobId "o1" orderW "completed"
      (by decide) (by decide)).2.1 (by decide)).1
  · exact ((c2_owner_or_admin envW stW bobId "o1" orderW "completed"
      (by decide) (by decide)).2.1 (by decide)).2

/-! ## Claim C7 — PATCH status restricted to the fixed enumeration -/

/-- A status accepted by `updateSchema` lies in the fixed enumeration. -/
theorem validOrderUpdate_mem (b : Option String) (s : String)
    (h : validOrderUpdate b = some s) : s ∈ ORDER_STATUSES := by
  cases b with
  | none => simp [validOrderUpdate] at h
  | some sb =>
    simp only [validOrderUpdate] at h
    by_cases hc : ORDER_STATUSES.contains sb = true
    · rw [if_pos hc] at h
      cases h
      simpa using hc
    · rw [if_neg hc] at h
      cases h

/-- Claim C7: a PATCH body whose status is outside the fixed enumeration
is rejected 400 `VALIDATION_ERROR` with the store untouched, and for any
body at all the handler only ever leaves statuses that belong to the
enumeration in the store. -/
theorem c7_patch_status (env : Env) (st : Store) (user : Identity)
    (oid : String) (s : String) (hs : s ∉ ORDER_STATUSES) :
    patchOrderHandler env st user oid (some s) = (.err 400 "VALIDATION_ERROR", st) ∧
    (∀ b, (∀ o ∈ st.orders, o.status ∈ ORDER_STATUSES) →
      ∀ o ∈ (patchOrderHandler env st user oid b).2.orders,
        o.status ∈ ORDER_STATUSES) := by
  constructor
  · have hv : validOrderUpdate (some s) = none := by
      simp only [validOrderUpdate]
      rw [if_neg]
      simpa using hs
    simp [patchOrderHandler, hv]
  · intro b hinv o hmem
    simp only [patchOrderHandler] at hmem
    cases hvb : validOrderUpdate b with
    | none => simp only [hvb] at hmem; exact hinv o hmem
    | some s' =>
      simp only [hvb] at hmem
      cases hf : st.orders.find? (fun q => q.id == oid) with
      | none => simp only [hf] at hmem; exact hinv o hmem
      | some o0 =>
        simp only [hf] at hmem
        by_cases hd : (o0.user_id != user.id && !(user.roles.contains "admin")) = true
        · rw [if_pos hd] at hmem
          exact hinv o hmem
        · rw [if_neg hd] at hmem
          simp only [List.mem_map] at hmem
          obtain ⟨q, hq, hqo⟩ := hmem
          by_cases hid : (q.id == oid) = true
          · rw [if_pos hid] at hqo
            rw [← hqo]
            exact validOrderUpdate_mem b s' hvb
          · rw [if_neg hid] at hqo
            rw [← hqo]
            exact hinv q hq

/-- Witness for C7: patching to the status "shipped" is rejected without
touching the store, and a "completed" patch keeps the invariant. -/
theorem c7_witness :
    patchOrderHandler envW stW aliceId "o1" (some "shipped") =
      (.err 400 "VALIDATION_ERROR", stW) ∧
    ∀ o ∈ (patchOrderHandler envW stW aliceId "o1" (some "completed")).2.orders,
      o.status ∈ ORDER_STATUSES := by
  constructor
  · exact (c7_patch_status envW stW aliceId "o1" "shipped" (by decide)).1
  · exact (c7_patch_status envW stW aliceId "o1" "shipped" (by decide)).2
      (some "completed") (by decide)

/-! ## Claim C8 — no second registration of the same email -/

/-- Claim C8: a valid registration of a fresh email succeeds with the
public user fields, and any subsequent valid registration with the same
email is rejected 400 `USER_EXISTS`, the store (hence the existing user
row) unchanged. -/
theorem c8_duplicate_email (env env2 : Env) (st : Store) (b b2 : RegBody)
    (hv : validRegister env b = true) (hv2 : validRegister env2 b2 = true)
    (hemail : b2.email = b.email)
    (hnew : st.users.any (fun r => r.email == b.email) = false) :
    ∃ st',
      registerHandler env st b =
        (.ok 200 (.user (toPublic
          { id := env.freshId, email := b.email, password := env.hash b.password,
            name := some (nameOrEmpty b.name), roles := ["user"],
            created_at := env.now, updated_at := env.now })), st') ∧
      registerHandler env2 st' b2 = (.err 400 "USER_EXISTS", st') := by
  refine ⟨{ st with users := st.users ++
      [{ id := env.freshId, email := b.email, password := env.hash b.password,
         name := some (nameOrEmpty b.name), roles := ["user"],
         created_at := env.now, updated_at := env.now }] }, ?_, ?_⟩
  · simp [registerHandler, hv, insertUser, hnew]
  · simp [registerHandler, hv2, insertUser, List.any_append, hemail]

/-- Witness for C8: registering alice's email twice into an empty store. -/
theorem c8_witness :
    ∃ st',
      registerHandler envW { users := [], orders := [] }
          { email := "alice@example.com", password := "secret1", name := none } =
        (.ok 200 (.user (toPublic
          { id := "fresh-1", email := "alice@example.com",
            password := "secret1#h", name := some "", roles := ["user"],
            created_at := 10, updated_at := 10 })), st') ∧
      registerHandler envW st'
          { email := "alice@example.com", password := "secret1", name := none } =
        (.err 400 "USER_EXISTS", st') :=
  c8_duplicate_email envW envW { users := [], orders := [] }
    { email := "alice@example.com", password := "secret1", name := none }
    { email := "alice@example.com", password := "secret1", name := none }
    (by decide) (by decide) rfl rfl

/-! ## Claim C4 — public-path bypass and guarded forwarding -/

/-- Claim C4: a path matching the fixed public allow-list (exact or by
prefix) bypasses the Authorization Guard entirely — the gateway outcome
does not depend on the verification environment and is never an auth
rejection; on every other path a request is forwarded to a backend only
if the guard accepted it. -/
theorem c4_gateway_guard (d1 d2 : String → TokenStr) (s1 s2 : String)
    (n1 n2 : Nat) (fresh : String) (req : GwRequest) :
    (isPublicPath req.path = true →
      gateway d1 s1 n1 fresh req = gateway d2 s2 n2 fresh req ∧
      ∀ s c, (gateway d1 s1 n1 fresh req).1 ≠ .reject s c) ∧
    (isPublicPath req.path = false →
      ∀ t p r a, (gateway d1 s1 n1 fresh req).1 = .fwd t p r a →
        ∃ u, authMiddleware d1 s1 n1 req.auth = .accept u) := by
  constructor
  · intro hpub
    constructor
    · simp only [gateway, hpub, if_true]
    · intro s c
      simp only [gateway, hpub, if_true]
      split
      · simp
      · split
        · simp
        · split <;> simp
  · intro hpub t p r a hfwd
    simp only [gateway, hpub, Bool.false_eq_true, if_false] at hfwd
    cases hg : authMiddleware d1 s1 n1 req.auth with
    | reject s c =>
      rw [hg] at hfwd
      simp at hfwd
    | accept u => exact ⟨u, rfl⟩

/-- Witness for C4: `/health` is public and the gateway treats it
identically under two verification environments; `/v1/orders/o1` is
protected, is forwarded under an accepting environment, and the guard
indeed accepted. -/
theorem c4_witness :
    gateway decode0 "s1" 0 "f" reqHealth = gateway decodeAlice "s2" 5 "f" reqHealth ∧
    (∃ u, authMiddleware decodeAlice "supersecret" 0 (some "Bearer tok") =
      .accept u) := by
  constructor
  · exact ((c4_gateway_guard decode0 decodeAlice "s1" "s2" 0 5 "f" reqHealth).1
      (by decide)).1
  · exact (c4_gateway_guard decodeAlice decode0 "supersecret" "x" 0 0 "f"
      reqOrders).2 (by decide) ORDERS_SERVICE_URL "/v1/orders/o1" "f" "Bearer tok"
      (by decide)

/-! ## Claim C6 — correlation identifier -/

/-- The `X-Request-ID` response header the gateway sets. -/
theorem gateway_snd (decode : String → TokenStr) (secret : String) (now : Nat)
    (fresh : String) (req : GwRequest) :
    (gateway decode secret now fresh req).2 =
      orFalsy req.rid1 (orFalsy req.rid2 fresh) := by
  simp only [gateway]
  split
  · rfl
  · split <;> rfl

/-- A forwarded request carries exactly the response correlation id. -/
theorem gateway_fwd_rid (decode : String → TokenStr) (secret : String)
    (now : Nat) (fresh : String) (req : GwRequest) (t p r a : String)
    (h : (gateway decode secret now fresh req).1 = .fwd t p r a) :
    r = orFalsy req.rid1 (orFalsy req.rid2 fresh) := by
  simp only [gateway] at h
  split at h
  · split at h
    · cases h; rfl
    · split at h
      · cases h; rfl
      · split at h
        · cases h
        · cases h
  · split at h
    · cases h
    · split at h
      · cases h; rfl
      · split at h
        · cases h; rfl
        · split at h
          · cases h
          · cases h

/-- Claim C6, counterexample: a request carrying the `x-request-id`
header with the empty value.  The claim demands verbatim reuse (an empty
response correlation id); JS string falsiness makes the middleware
synthesize a fresh id instead. -/
theorem c6_counterexample :
    (gateway decode0 "supersecret" 0 "gen-1"
      { path := "/health", auth := none, rid1 := some "", rid2 := none }).2 =
      "gen-1" ∧ "gen-1" ≠ "" := by
  constructor
  · decide
  · decide

/-- Claim C6 as amended: a non-empty inbound `x-request-id` (or, failing
that, `x-requestid`) value is reused verbatim, otherwise the synthesized
fresh id is used; the resulting identifier is both the forwarded
`x-request-id` header of any proxied request and the `X-Request-ID`
response header. -/
theorem c6_correlation (decode : String → TokenStr) (secret : String)
    (now : Nat) (fresh : String) (req : GwRequest) :
    (∀ v, req.rid1 = some v → v ≠ "" →
      (gateway decode secret now fresh req).2 = v) ∧
    ((req.rid1 = none ∨ req.rid1 = some "") →
      ∀ v, req.rid2 = some v → v ≠ "" →
        (gateway decode secret now fresh req).2 = v) ∧
    ((req.rid1 = none ∨ req.rid1 = some "") →
      (req.rid2 = none ∨ req.rid2 = some "") →
      (gateway decode secret now fresh req).2 = fresh) ∧
    (∀ t p r a, (gateway decode secret now fresh req).1 = .fwd t p r a →
      r = (gateway decode secret now fresh req).2) := by
  refine ⟨?_, ?_, ?_, ?_⟩
  · intro v h1 hv
    rw [gateway_snd, h1]
    simp [orFalsy, hv]
  · intro h1 v h2 hv
    rw [gateway_snd, h2]
    rcases h1 with h1 | h1 <;> rw [h1] <;> simp [orFalsy, hv]
  · intro h1 h2
    rw [gateway_snd]
    rcases h1 with h1 | h1 <;> rcases h2 with h2 | h2 <;>
      rw [h1, h2] <;> simp [orFalsy]
  · intro t p r a h
    rw [gateway_snd]
    exact gateway_fwd_rid decode secret now fresh req t p r a h

/-- Witness for C6: a carried non-empty id is reused, an absent one is
replaced by the fresh id, and a forwarded request carries the response
id. -/
theorem c6_witness :
    (gateway decode0 "supersecret" 0 "gen-2"
      { path := "/health", auth := none, rid1 := some "abc", rid2 := none }).2 =
      "abc" ∧
    (gateway decode0 "supersecret" 0 "gen-2" reqHealth).2 = "gen-2" := by
  constructor
  · exact (c6_correlation decode0 "supersecret" 0 "gen-2" _).1 "abc" rfl (by decide)
  · exact (c6_correlation decode0 "supersecret" 0 "gen-2" reqHealth).2.2.1
      (Or.inl rfl) (Or.inl rfl)

/-- Witness for C9 at a concrete store, identity and empty body. -/
theorem c9_witness :
    patchMeHandler
      { secret := "supersecret", decode := decode0, emailOk := fun _ => true,
        hash := fun p => p ++ "#h", check := fun _ _ => true, now := 5,
        freshId := "id-1" }
      { users := [{ id := "u1", email := "a@b.c", password := "h1",
                    name := some "", roles := ["user"],
                    created_at := 0, updated_at := 0 }], orders := [] }
      ⟨"u1", "a@b.c", ["user"]⟩
      { name := none, password := none } =
      (.ok 200 .nullData,
       { users := [{ id := "u1", email := "a@b.c", password := "h1",
                     name := some "", roles := ["user"],
                     created_at := 0, updated_at := 0 }], orders := [] }) :=
  c9_noop_patch _ _ _ _ rfl rfl

/-! ## Claim C10 — no success payload contains the stored password hash -/

theorem mem_insertBy (le : α → α → Bool) (x a : α) (l : List α) :
    a ∈ insertBy le x l ↔ a = x ∨ a ∈ l := by
  induction l with
  | nil => simp [insertBy]
  | cons y ys ih =>
    simp only [insertBy]
    by_cases h : le x y = true
    · rw [if_pos h]
      simp
    · rw [if_neg h]
      simp only [List.mem_cons, ih]
      tauto

theorem mem_sortBy (le : α → α → Bool) (a : α) (l : List α) :
    a ∈ sortBy le l ↔ a ∈ l := by
  induction l with
  | nil => simp [sortBy]
  | cons x xs ih => simp [sortBy, mem_insertBy, ih]

theorem pageSlice_subset (p l : Int) (rows : List α) (a : α)
    (h : a ∈ pageSlice p l rows) : a ∈ rows := by
  unfold pageSlice at h
  exact List.drop_subset _ _ (List.take_subset _ _ h)

theorem mem_storeUserStrings (st : Store) (r : UserRow) (pw : String)
    (hr : r ∈ st.users) (hpw : pw ∈ pubUserStrings (toPublic r)) :
    pw ∈ storeUserStrings st := by
  unfold storeUserStrings
  rw [List.mem_flatten]
  exact ⟨pubUserStrings (toPublic r), List.mem_map_of_mem _ hr, hpw⟩

theorem mem_storeOrderStrings (st : Store) (o : OrderRow) (pw : String)
    (ho : o ∈ st.orders) (hpw : pw ∈ pubOrderStrings (orderPublic o)) :
    pw ∈ storeOrderStrings st := by
  unfold storeOrderStrings
  rw [List.mem_flatten]
  exact ⟨pubOrderStrings (orderPublic o), List.mem_map_of_mem _ ho, hpw⟩

theorem nameOrEmpty_cases (n : Option (Option String)) (pw : String)
    (h : pw = nameOrEmpty n) :
    (∃ s, n = some (some s) ∧ pw = s) ∨ pw = "" := by
  cases n with
  | none => right; simpa [nameOrEmpty] using h
  | some v =>
    cases v with
    | none => right; simpa [nameOrEmpty] using h
    | some s => left; exact ⟨s, rfl, by simpa [nameOrEmpty] using h⟩

theorem tokenStrings_sub (u : UserRow) (secret : String) (now : Nat) (pw : String)
    (h : pw ∈ tokenStrings (jwtSign ⟨u.id, u.email, u.roles⟩ secret now)) :
    pw ∈ pubUserStrings (toPublic u) := by
  simp only [tokenStrings, jwtSign, List.mem_cons] at h
  simp only [pubUserStrings, toPublic, List.mem_cons, List.mem_append]
  tauto

theorem applyProfileUpdate_strings (nameField : Option (Option String))
    (pwField : Option String) (now : Nat) (r : UserRow) (pw : String)
    (h : pw ∈ pubUserStrings (toPublic (applyProfileUpdate nameField pwField now r))) :
    pw ∈ pubUserStrings (toPublic r) ∨ ∃ n, nameField = some (some n) ∧ pw = n := by
  cases nameField with
  | none =>
    left
    simp only [applyProfileUpdate, pubUserStrings, toPublic, List.mem_cons,
      List.mem_append] at h ⊢
    tauto
  | some v =>
    cases v with
    | none =>
      left
      simp only [applyProfileUpdate, pubUserStrings, toPublic, List.mem_cons,
        List.mem_append, List.not_mem_nil, false_or] at h ⊢
      tauto
    | some n =>
      simp only [applyProfileUpdate, pubUserStrings, toPublic, List.mem_cons,
        List.mem_append, List.mem_singleton, List.not_mem_nil, or_false] at h
      rcases h with h | h | h | h
      · left
        simp [pubUserStrings, toPublic, h]
      · left
        simp [pubUserStrings, toPublic, h]
      · right
        exact ⟨n, rfl, h⟩
      · left
        simp only [pubUserStrings, toPublic, List.mem_cons, List.mem_append]
        tauto

theorem patchedOrderStrings (o : OrderRow) (s' : String) (now : Nat) (pw : String)
    (h : pw ∈ pubOrderStrings (orderPublic { o with status := s', updated_at := now })) :
    pw ∈ pubOrderStrings (orderPublic o) ∨ pw = s' := by
  simp only [pubOrderStrings, orderPublic, List.mem_cons] at h ⊢
  tauto

theorem registerHandler_leak (env : Env) (st : Store) (b : RegBody)
    (s : Nat) (d : RespData) (pw : String)
    (hok : (registerHandler env st b).1 = .ok s d) (hmem : pw ∈ dataStrings d) :
    pw = env.freshId ∨ pw = b.email ∨ (∃ n, b.name = some (some n) ∧ pw = n) ∨
      pw = "" ∨ pw = "user" := by
  unfold registerHandler at hok
  by_cases hv : validRegister env b = true
  · rw [if_neg (by simp [hv])] at hok
    simp only [insertUser] at hok
    by_cases ha : st.users.any (fun r => r.email == b.email) = true
    · rw [if_pos ha] at hok
      simp at hok
    · rw [if_neg ha] at hok
      simp only [Prod.fst, Resp.ok.injEq] at hok
      obtain ⟨hs, hd⟩ := hok
      subst hd
      simp only [dataStrings, pubUserStrings, toPublic, List.mem_cons,
        List.mem_append, List.mem_singleton, List.not_mem_nil, or_false] at hmem
      rcases hmem with h | h | h | h
      · exact Or.inl h
      · exact Or.inr (Or.inl h)
      · rcases nameOrEmpty_cases b.name pw h with ⟨n, hn, hpn⟩ | h0
        · exact Or.inr (Or.inr (Or.inl ⟨n, hn, hpn⟩))
        · exact Or.inr (Or.inr (Or.inr (Or.inl h0)))
      · exact Or.inr (Or.inr (Or.inr (Or.inr h)))
  · rw [if_pos (by simp [Bool.eq_false_iff.mpr hv])] at hok
    simp at hok

theorem loginHandler_leak (env : Env) (st : Store) (b : LoginBody)
    (s : Nat) (d : RespData) (pw : String)
    (hok : loginHandler env st b = .ok s d) (hmem : pw ∈ dataStrings d) :
    pw ∈ storeUserStrings st := by
  unfold loginHandler at hok
  by_cases hv : validLogin env b = true
  · rw [if_neg (by simp [hv])] at hok
    cases hf : st.users.find? (fun r => r.email == b.email) with
    | none => simp only [hf] at hok; simp at hok
    | some u =>
      simp only [hf] at hok
      by_cases hc : env.check b.password u.password = true
      · rw [if_pos hc] at hok
        simp only [Resp.ok.injEq] at hok
        obtain ⟨hs, hd⟩ := hok
        subst hd
        exact mem_storeUserStrings st u pw (List.mem_of_find?_eq_some hf)
          (tokenStrings_sub u env.secret env.now pw hmem)
      · rw [if_neg hc] at hok
        simp at hok
  · rw [if_pos (by simp [Bool.eq_false_iff.mpr hv])] at hok
    simp at hok

theorem getMeHandler_leak (st : Store) (user : Identity)
    (s : Nat) (d : RespData) (pw : String)
    (hok : getMeHandler st user = .ok s d) (hmem : pw ∈ dataStrings d) :
    pw ∈ storeUserStrings st := by
  unfold getMeHandler at hok
  cases hf : st.users.find? (fun r => r.id == user.id) with
  | none => simp only [hf] at hok; simp at hok
  | some r =>
    simp only [hf] at hok
    simp only [Resp.ok.injEq] at hok
    obtain ⟨hs, hd⟩ := hok
    subst hd
    exact mem_storeUserStrings st r pw (List.mem_of_find?_eq_some hf) hmem

theorem patchMeHandler_leak (env : Env) (st : Store) (user : Identity)
    (b : UpdateBody) (s : Nat) (d : RespData) (pw : String)
    (hok : (patchMeHandler env st user b).1 = .ok s d) (hmem : pw ∈ dataStrings d) :
    pw ∈ storeUserStrings st ∨ ∃ n, b.name = some (some n) ∧ pw = n := by
  simp only [patchMeHandler] at hok
  by_cases hv : validUpdateMe b = true
  · rw [if_neg (by simp [hv])] at hok
    by_cases hC : (b.name = none ∧
        (match b.password with
         | some p => if p = "" then none else some (env.hash p)
         | none => none) = none)
    · rw [if_pos hC] at hok
      simp only [Prod.fst, Resp.ok.injEq] at hok
      obtain ⟨hs, hd⟩ := hok
      subst hd
      simp [dataStrings] at hmem
    · rw [if_neg hC] at hok
      cases hf : st.users.find? (fun r => r.id == user.id) with
      | none =>
        simp only [hf] at hok
        simp only [Prod.fst, Resp.ok.injEq] at hok
        obtain ⟨hs, hd⟩ := hok
        subst hd
        simp [dataStrings] at hmem
      | some r =>
        simp only [hf] at hok
        simp only [Prod.fst, Resp.ok.injEq] at hok
        obtain ⟨hs, hd⟩ := hok
        subst hd
        rcases applyProfileUpdate_strings b.name _ env.now r pw hmem with h | h
        · exact Or.inl (mem_storeUserStrings st r pw (List.mem_of_find?_eq_some hf) h)
        · exact Or.inr h
  · rw [if_pos (by simp [Bool.eq_false_iff.mpr hv])] at hok
    simp at hok

theorem listUsersHandler_leak (st : Store) (user : Identity)
    (pq lq eq2 : Option String) (s : Nat) (d : RespData) (pw : String)
    (hok : listUsersHandler st user pq lq eq2 = .ok s d)
    (hmem : pw ∈ dataStrings d) : pw ∈ storeUserStrings st := by
  simp only [listUsersHandler] at hok
  by_cases hadmin : "admin" ∈ user.roles
  · rw [if_neg (by simp [hadmin])] at hok
    cases hp : pageOf pq with
    | none => simp only [hp] at hok; simp at hok
    | some p =>
      cases hl : limitOf lq with
      | none => simp only [hp, hl] at hok; simp at hok
      | some l =>
        simp only [hp, hl] at hok
        simp only [Resp.ok.injEq] at hok
        obtain ⟨hs, hd⟩ := hok
        subst hd
        simp only [dataStrings, List.mem_flatten, List.mem_map] at hmem
        obtain ⟨strs, ⟨u, ⟨r, hr, hru⟩, hstrs⟩, hpw⟩ := hmem
        subst hru
        subst hstrs
        have hr2 := pageSlice_subset _ _ _ _ hr
        rw [mem_sortBy] at hr2
        exact mem_storeUserStrings st r pw (List.mem_filter.mp hr2).1 hpw
  · rw [if_pos (by simp [hadmin])] at hok
    simp at hok

theorem createOrderHandler_leak (env : Env) (st : Store) (user : Identity)
    (b : CreateBody) (s : Nat) (d : RespData) (pw : String)
    (hok : (createOrderHandler env st user b).1 = .ok s d)
    (hmem : pw ∈ dataStrings d) :
    pw = env.freshId ∨ pw ∈ storeUserStrings st ∨ pw = "created" ∨
      pw ∈ b.items.map (fun it => it.1) := by
  unfold createOrderHandler at hok
  by_cases hv : validCreate b = true
  · rw [if_neg (by simp [hv])] at hok
    by_cases hu : st.users.any (fun u => u.id == user.id) = true
    · rw [if_neg (by simp [hu])] at hok
      simp only [Prod.fst, Resp.ok.injEq] at hok
      obtain ⟨hs, hd⟩ := hok
      subst hd
      simp only [dataStrings, pubOrderStrings, orderPublic, List.mem_cons] at hmem
      rcases hmem with h | h | h | h
      · exact Or.inl h
      · obtain ⟨u, hu2, hu3⟩ := List.any_eq_true.mp hu
        rw [beq_iff_eq] at hu3
        refine Or.inr (Or.inl (mem_storeUserStrings st u pw hu2 ?_))
        simp [pubUserStrings, toPublic, h, hu3]
      · exact Or.inr (Or.inr (Or.inl h))
      · exact Or.inr (Or.inr (Or.inr h))
    · rw [if_pos (by simp [Bool.eq_false_iff.mpr hu])] at hok
      simp at hok
  · rw [if_pos (by simp [Bool.eq_false_iff.mpr hv])] at hok
    simp at hok

theorem getOrderHandler_leak (st : Store) (user : Identity) (oid : String)
    (s : Nat) (d : RespData) (pw : String)
    (hok : getOrderHandler st user oid = .ok s d) (hmem : pw ∈ dataStrings d) :
    pw ∈ storeOrderStrings st := by
  unfold getOrderHandler at hok
  cases hf : st.orders.find? (fun o => o.id == oid) with
  | none => simp only [hf] at hok; simp at hok
  | some o =>
    simp only [hf] at hok
    by_cases hd : (o.user_id != user.id && !(user.roles.contains "admin")) = true
    · rw [if_pos hd] at hok
      simp at hok
    · rw [if_neg hd] at hok
      simp only [Resp.ok.injEq] at hok
      obtain ⟨hs, hdd⟩ := hok
      subst hdd
      exact mem_storeOrderStrings st o pw (List.mem_of_find?_eq_some hf) hmem

theorem listOrdersHandler_leak (st : Store) (user : Identity)
    (pq lq sq : Option String) (s : Nat) (d : RespData) (pw : String)
    (hok : listOrdersHandler st user pq lq sq = .ok s d)
    (hmem : pw ∈ dataStrings d) : pw ∈ storeOrderStrings st := by
  simp only [listOrdersHandler] at hok
  cases hp : pageOf pq with
  | none => simp only [hp] at hok; simp at hok
  | some p =>
    cases hl : limitOf lq with
    | none => simp only [hp, hl] at hok; simp at hok
    | some l =>
      simp only [hp, hl] at hok
      simp only [Resp.ok.injEq] at hok
      obtain ⟨hs, hd⟩ := hok
      subst hd
      simp only [dataStrings, List.mem_flatten, List.mem_map] at hmem
      obtain ⟨strs, ⟨u, ⟨o, ho, hou⟩, hstrs⟩, hpw⟩ := hmem
      subst hou
      subst hstrs
      have ho2 := pageSlice_subset _ _ _ _ ho
      rw [mem_sortBy] at ho2
      exact mem_storeOrderStrings st o pw (List.mem_filter.mp ho2).1 hpw

theorem patchOrderHandler_leak (env : Env) (st : Store) (user : Identity)
    (oid : String) (bo : Option String) (s : Nat) (d : RespData) (pw : String)
    (hok : (patchOrderHandler env st user oid bo).1 = .ok s d)
    (hmem : pw ∈ dataStrings d) :
    pw ∈ storeOrderStrings st ∨ pw ∈ ORDER_STATUSES := by
  simp only [patchOrderHandler] at hok
  cases hvb : validOrderUpdate bo with
  | none => simp only [hvb] at hok; simp at hok
  | some s' =>
    simp only [hvb] at hok
    cases hf : st.orders.find? (fun o => o.id == oid) with
    | none => simp only [hf] at hok; simp at hok
    | some o0 =>
      simp only [hf] at hok
      by_cases hd : (o0.user_id != user.id && !(user.roles.contains "admin")) = true
      · rw [if_pos hd] at hok
        simp at hok
      · rw [if_neg hd] at hok
        simp only [Prod.fst, Resp.ok.injEq] at hok
        obtain ⟨hs, hdd⟩ := hok
        subst hdd
        rcases patchedOrderStrings o0 s' env.now pw hmem with h | h
        · exact Or.inl (mem_storeOrderStrings st o0 pw
            (List.mem_of_find?_eq_some hf) h)
        · right
          rw [h]
          exact validOrderUpdate_mem bo s' hvb

/-- Claim C10: any string distinct from every public field stored in the
database, from the request's own public strings, from the freshly
generated id and from the fixed response literals — in particular the
stored bcrypt password hash — never occurs in any success payload of
either service: user payloads factor through `toPublic`, order payloads
through `orderPublic`, and login returns only the signed token. -/
theorem c10_no_password_leak (env : Env) (st : Store) (pw : String)
    (hstore : pw ∉ storeUserStrings st) (horder : pw ∉ storeOrderStrings st)
    (hfresh : pw ≠ env.freshId) (hfixed : pw ∉ fixedRespStrings) :
    (∀ req, pw ∉ usersReqStrings req →
      ∀ s d, (userService env st req).1 = .ok s d → pw ∉ dataStrings d) ∧
    (∀ req, pw ∉ ordersReqStrings req →
      ∀ s d, (ordersService env st req).1 = .ok s d → pw ∉ dataStrings d) := by
  constructor
  · intro req hreq s d hok hmem
    cases req with
    | register b =>
      simp only [userService] at hok
      rcases registerHandler_leak env st b s d pw hok hmem with
        h | h | ⟨n, hn, h⟩ | h | h
      · exact hfresh h
      · exact hreq (by simp [usersReqStrings, h])
      · exact hreq (by simp [usersReqStrings, hn, h])
      · exact hfixed (by simp [fixedRespStrings, h])
      · exact hfixed (by simp [fixedRespStrings, h])
    | login b =>
      simp only [userService] at hok
      exact hstore (loginHandler_leak env st b s d pw hok hmem)
    | getMe auth =>
      simp only [userService] at hok
      cases hg : authMiddleware env.decode env.secret env.now auth with
      | reject s2 c => simp only [hg] at hok; simp at hok
      | accept u =>
        simp only [hg] at hok
        exact hstore (getMeHandler_leak st u s d pw hok hmem)
    | patchMe auth b =>
      simp only [userService] at hok
      cases hg : authMiddleware env.decode env.secret env.now auth with
      | reject s2 c => simp only [hg] at hok; simp at hok
      | accept u =>
        simp only [hg] at hok
        rcases patchMeHandler_leak env st u b s d pw hok hmem with h | ⟨n, hn, h⟩
        · exact hstore h
        · exact hreq (by simp [usersReqStrings, hn, h])
    | listUsers auth pq lq eq2 =>
      simp only [userService] at hok
      cases hg : authMiddleware env.decode env.secret env.now auth with
      | reject s2 c => simp only [hg] at hok; simp at hok
      | accept u =>
        simp only [hg] at hok
        exact hstore (listUsersHandler_leak st u pq lq eq2 s d pw hok hmem)
    | health =>
      simp only [userService, Resp.ok.injEq] at hok
      obtain ⟨hs, hd⟩ := hok
      subst hd
      simp only [dataStrings, List.mem_singleton] at hmem
      exact hfixed (by simp [fixedRespStrings, hmem])
  · intro req hreq s d hok hmem
    cases req with
    | create auth b =>
      simp only [ordersService] at hok
      cases hg : authMiddleware env.decode env.secret env.now auth with
      | reject s2 c => simp only [hg] at hok; simp at hok
      | accept u =>
        simp only [hg] at hok
        rcases createOrderHandler_leak env st u b s d pw hok hmem with
          h | h | h | h
        · exact hfresh h
        · exact hstore h
        · exact hfixed (by simp [fixedRespStrings, ORDER_STATUSES, h])
        · exact hreq (by simpa [ordersReqStrings] using h)
    | getOrder auth oid =>
      simp only [ordersService] at hok
      cases hg : authMiddleware env.decode env.secret env.now auth with
      | reject s2 c => simp only [hg] at hok; simp at hok
      | accept u =>
        simp only [hg] at hok
        exact horder (getOrderHandler_leak st u oid s d pw hok hmem)
    | listOrders auth pq lq sq =>
      simp only [ordersService] at hok
      cases hg : authMiddleware env.decode env.secret env.now auth with
      | reject s2 c => simp only [hg] at hok; simp at hok
      | accept u =>
        simp only [hg] at hok
        exact horder (listOrdersHandler_leak st u pq lq sq s d pw hok hmem)
    | patchOrder auth oid bo =>
      simp only [ordersService] at hok
      cases hg : authMiddleware env.decode env.secret env.now auth with
      | reject s2 c => simp only [hg] at hok; simp at hok
      | accept u =>
        simp only [hg] at hok
        rcases patchOrderHandler_leak env st u oid bo s d pw hok hmem with h | h
        · exact horder h
        · exact hfixed (by simp only [fixedRespStrings, List.mem_cons]; tauto)
    | health =>
      simp only [ordersService, Resp.ok.injEq] at hok
      obtain ⟨hs, hd⟩ := hok
      subst hd
      simp only [dataStrings, List.mem_singleton] at hmem
      exact hfixed (by simp [fixedRespStrings, hmem])

/-- Witness for C10: alice's stored hash is distinct from every public
string of the demo store, and indeed does not occur in the health
payload of the users service. -/
theorem c10_witness :
    "secret1#h" ∉ dataStrings (.health "users OK") :=
  (c10_no_password_leak envW stW "secret1#h" (by decide) (by decide)
    (by decide) (by decide)).1 .health (by decide) 200 (.health "users OK")
    (by decide)

end Micro

